import Mathlib

/-!
Verification of the colcon color-conversion library (`src/lib.rs`).

The development shallowly embeds the library:

* `Space` and its `PartialOrd` implementation (`Space.pcmp`) are transcribed
  from the `enum Space` and `impl PartialOrd for Space` blocks.
* The recursive dispatcher `convert_space_chunked` walks a fixed tree of
  per-pixel edge functions.  The walk is factored into `nextStep`
  (one recursion step of the Rust `match`, returning the edge function applied
  and the next `from` space; the source's `unreachable!()` arms become `none`)
  and `pathF` (the recursion itself, with an explicit fuel argument standing in
  for the unbounded Rust recursion; fuel monotonicity `pathF_mono` plus the
  decidable fact that fuel 6 always succeeds recovers termination of the
  original recursion).
* Pixels are triples of real numbers; each per-pixel edge function of the
  source is transcribed over `ℝ` (the `f32` arithmetic is modelled by exact
  real arithmetic, decimal literals read as exact rationals).
-/

/-- Colorspace enumeration, transcribed from `enum Space` in `src/lib.rs`
(the ten variants, in source order). -/
inductive Space where
  | SRGB
  | HSV
  | LRGB
  | XYZ
  | CIELAB
  | CIELCH
  | OKLAB
  | OKLCH
  | JZAZBZ
  | JZCZHZ
deriving DecidableEq, Fintype, Repr

/-- Transcription of `impl PartialOrd for Space` (`partial_cmp`): equal spaces
compare `eq`; `SRGB` is the base (`lt` against everything); the four polar
endcaps compare `gt` against everything; spine and LAB-branch nodes compare
by the listed cases. -/
def Space.pcmp (a b : Space) : Option Ordering :=
  if a = b then some Ordering.eq
  else
    some (match a with
      | .SRGB => Ordering.lt
      | .HSV => Ordering.gt
      | .CIELCH => Ordering.gt
      | .OKLCH => Ordering.gt
      | .JZCZHZ => Ordering.gt
      | .LRGB =>
        match b with
        | .SRGB | .HSV => Ordering.gt
        | _ => Ordering.lt
      | .XYZ =>
        match b with
        | .SRGB | .LRGB | .HSV => Ordering.gt
        | _ => Ordering.lt
      | .CIELAB =>
        match b with
        | .CIELCH => Ordering.lt
        | _ => Ordering.gt
      | .OKLAB =>
        match b with
        | .OKLCH => Ordering.lt
        | _ => Ordering.gt
      | .JZAZBZ =>
        match b with
        | .JZCZHZ => Ordering.lt
        | _ => Ordering.gt)

/-- Rust `a < b`, i.e. `partial_cmp(a, b) == Some(Less)`. -/
def Space.lt (a b : Space) : Prop := Space.pcmp a b = some Ordering.lt

/-- Rust `a > b`, i.e. `partial_cmp(a, b) == Some(Greater)`. -/
def Space.gt (a b : Space) : Prop := Space.pcmp a b = some Ordering.gt

instance (a b : Space) : Decidable (Space.lt a b) := by unfold Space.lt; infer_instance

instance (a b : Space) : Decidable (Space.gt a b) := by unfold Space.gt; infer_instance

/-- The per-pixel edge functions of the conversion graph, one constructor per
conversion function used by `convert_space_chunked` (note `lab_to_lch` and
`lch_to_lab` are single functions shared by all three LAB-like families). -/
inductive Edge where
  | srgbToHsv
  | hsvToSrgb
  | srgbToLrgb
  | lrgbToSrgb
  | lrgbToXyz
  | xyzToLrgb
  | xyzToLab
  | labToXyz
  | xyzToOklab
  | oklabToXyz
  | xyzToJzazbz
  | jzazbzToXyz
  | labToLch
  | lchToLab
deriving DecidableEq, Repr

/-- One step of the `convert_space_chunked` recursion: for `from ≠ to`, the
edge function applied to every pixel and the `from` space of the recursive
call.  Transcribed arm by arm from the source `match`; the source's
`unreachable!()` arms (a panic) are `none`.  The three terminal arms
(`SRGB → HSV` and `{CIELAB,OKLAB,JZAZBZ} → lab_to_lch`) apply their edge and
stop, which is modelled by returning `to` as the next space. -/
def nextStep (f t : Space) : Option (Edge × Space) :=
  if Space.pcmp f t = some Ordering.gt then
    match f with
    | .SRGB => none
    | .HSV => some (.hsvToSrgb, .SRGB)
    | .LRGB => some (.lrgbToSrgb, .SRGB)
    | .XYZ => some (.xyzToLrgb, .LRGB)
    | .CIELAB => some (.labToXyz, .XYZ)
    | .CIELCH => some (.lchToLab, .CIELAB)
    | .OKLAB => some (.oklabToXyz, .XYZ)
    | .OKLCH => some (.lchToLab, .OKLAB)
    | .JZAZBZ => some (.jzazbzToXyz, .XYZ)
    | .JZCZHZ => some (.lchToLab, .JZAZBZ)
  else if Space.pcmp f t = some Ordering.lt then
    match f with
    | .HSV | .CIELCH | .OKLCH | .JZCZHZ => none
    | .SRGB =>
      match t with
      | .HSV => some (.srgbToHsv, .HSV)
      | _ => some (.srgbToLrgb, .LRGB)
    | .LRGB => some (.lrgbToXyz, .XYZ)
    | .XYZ =>
      match t with
      | .CIELAB | .CIELCH => some (.xyzToLab, .CIELAB)
      | .OKLAB | .OKLCH => some (.xyzToOklab, .OKLAB)
      | .JZAZBZ | .JZCZHZ => some (.xyzToJzazbz, .JZAZBZ)
      | _ => none
    | .CIELAB | .OKLAB | .JZAZBZ => some (.labToLch, t)
  else none

/-- The edge sequence computed by the `convert_space_chunked` recursion,
with a fuel argument modelling the unbounded Rust recursion (fuel 6 suffices
for every pair; `pathF_mono` below shows larger fuel gives the same answer). -/
def pathF : Nat → Space → Space → Option (List Edge)
  | 0, _, _ => none
  | n + 1, f, t =>
    if f = t then some []
    else
      match nextStep f t with
      | none => none
      | some (e, f2) => (pathF n f2 t).map (fun es => e :: es)

/-- The sequence of spaces visited by the `convert_space_chunked` recursion
(same recursion as `pathF`, recording the `from` argument of each call). -/
def nodesF : Nat → Space → Space → Option (List Space)
  | 0, _, _ => none
  | n + 1, f, t =>
    if f = t then some [f]
    else
      match nextStep f t with
      | none => none
      | some (_, f2) => (nodesF n f2 t).map (fun vs => f :: vs)

/-- The edge sequence of the dispatcher, at sufficient fuel. -/
def path (f t : Space) : Option (List Edge) := pathF 6 f t

/-- Parent of each space in the conversion tree described by the spec (§4.5):
the spine is `SRGB → LRGB → XYZ`, `HSV` hangs off `SRGB`, the three Cartesian
UCS spaces hang off `XYZ`, and each polar space hangs off its Cartesian
counterpart.  This is exactly the adjacency realised by the edge functions. -/
def parentSpace : Space → Option Space
  | .SRGB => none
  | .HSV => some .SRGB
  | .LRGB => some .SRGB
  | .XYZ => some .LRGB
  | .CIELAB => some .XYZ
  | .OKLAB => some .XYZ
  | .JZAZBZ => some .XYZ
  | .CIELCH => some .CIELAB
  | .OKLCH => some .OKLAB
  | .JZCZHZ => some .JZAZBZ

/-- The chain from a space up to the tree root `SRGB` (the space itself
first), written out per space; `toRoot_spec` checks it against
`parentSpace`. -/
def toRoot : Space → List Space
  | .SRGB => [.SRGB]
  | .HSV => [.HSV, .SRGB]
  | .LRGB => [.LRGB, .SRGB]
  | .XYZ => [.XYZ, .LRGB, .SRGB]
  | .CIELAB => [.CIELAB, .XYZ, .LRGB, .SRGB]
  | .OKLAB => [.OKLAB, .XYZ, .LRGB, .SRGB]
  | .JZAZBZ => [.JZAZBZ, .XYZ, .LRGB, .SRGB]
  | .CIELCH => [.CIELCH, .CIELAB, .XYZ, .LRGB, .SRGB]
  | .OKLCH => [.OKLCH, .OKLAB, .XYZ, .LRGB, .SRGB]
  | .JZCZHZ => [.JZCZHZ, .JZAZBZ, .XYZ, .LRGB, .SRGB]

/-- Sanity check: `toRoot` is the iterated `parentSpace` chain. -/
lemma toRoot_spec :
    ∀ s : Space,
      toRoot s = s :: (match parentSpace s with | none => [] | some q => toRoot q) := by
  decide

/-- Length of the common suffix of two lists (used to locate the lowest
common ancestor on the two root chains). -/
def commonSuffixLen (a b : List Space) : Nat :=
  ((a.reverse.zip b.reverse).takeWhile (fun q => decide (q.1 = q.2))).length

/-- Distance between two spaces in the conversion tree. -/
def treeDist (a b : Space) : Nat :=
  (toRoot a).length + (toRoot b).length - 2 * commonSuffixLen (toRoot a) (toRoot b)

/-- `a` is an ancestor (or equal to) `b` in the conversion tree. -/
def isAncestor (a b : Space) : Prop := a ∈ toRoot b

instance (a b : Space) : Decidable (isAncestor a b) := by unfold isAncestor; infer_instance

/-- Fuel monotonicity of `pathF`: once the recursion completes at some fuel,
any larger fuel produces the same edge sequence (so the fuel-free Rust
recursion is faithfully represented by any sufficient fuel). -/
lemma pathF_mono :
    ∀ (k : Nat) (f t : Space) (p : List Edge), pathF k f t = some p →
      ∀ n : Nat, k ≤ n → pathF n f t = some p := by
  intro k
  induction k with
  | zero => intro f t p h; simp [pathF] at h
  | succ k ih =>
    intro f t p h n hn
    obtain ⟨m, rfl⟩ : ∃ m, n = m + 1 := ⟨n - 1, by omega⟩
    by_cases hft : f = t
    · simp only [pathF, hft, if_pos rfl] at h ⊢
      exact h
    · simp only [pathF, if_neg hft] at h ⊢
      cases hns : nextStep f t with
      | none => rw [hns] at h; exact absurd h (by simp)
      | some ef =>
        obtain ⟨e, f2⟩ := ef
        rw [hns] at h
        dsimp only at h ⊢
        cases hk : pathF k f2 t with
        | none => rw [hk] at h; exact absurd h (by simp)
        | some q =>
          rw [hk] at h
          rw [ih f2 t q hk m (by omega)]
          exact h

/-- Decidable per-pair facts about the dispatcher walk, checked by evaluation
over all 100 ordered pairs: the walk completes within fuel 6, applies at most
5 edges, applies no more edges than the tree distance (indeed exactly that
many), and never visits a space twice. -/
lemma path_facts :
    ∀ f t : Space,
      (pathF 6 f t).isSome = true ∧
      (nodesF 6 f t).isSome = true ∧
      ((pathF 6 f t).getD []).length ≤ 5 ∧
      ((pathF 6 f t).getD []).length = treeDist f t ∧
      ((nodesF 6 f t).getD []).Nodup := by
  decide

/-! ## Numeric kernel over `ℝ`

The `f32` arithmetic of the source is modelled by exact real arithmetic:
decimal literals are read as the exact rationals they denote, `powf` on a
nonnegative base is `Real.rpow`, `cbrt` is the real (sign-preserving) cube
root, `atan2` is the complex argument, and `rem_euclid` is the Euclidean
remainder `x - m * ⌊x / m⌋`. -/

/-- A 3-channel pixel. -/
abbrev Pixel : Type := ℝ × ℝ × ℝ

/-- Rust `spowf`: `n.abs().powf(power).copysign(n)`. -/
noncomputable def spowf (n power : ℝ) : ℝ :=
  if n < 0 then -(|n| ^ power) else |n| ^ power

/-- Rust `f32::cbrt` (sign-preserving real cube root). -/
noncomputable def cbrt (x : ℝ) : ℝ :=
  if x < 0 then -((-x) ^ ((1 : ℝ) / 3)) else x ^ ((1 : ℝ) / 3)

/-- Rust `f32::trunc` (round toward zero). -/
noncomputable def truncR (x : ℝ) : ℝ :=
  if x < 0 then -((⌊-x⌋ : ℤ) : ℝ) else ((⌊x⌋ : ℤ) : ℝ)

/-- Rust `f32::rem_euclid` for a positive modulus: `x - m * ⌊x / m⌋`. -/
noncomputable def remEuclid (x m : ℝ) : ℝ := x - m * ((⌊x / m⌋ : ℤ) : ℝ)

/-- Rust `f32::to_degrees`. -/
noncomputable def toDegrees (x : ℝ) : ℝ := x * (180 / Real.pi)

/-- Rust `f32::to_radians`. -/
noncomputable def toRadians (x : ℝ) : ℝ := x * (Real.pi / 180)

/-- Rust `f32::atan2` (`y.atan2(x)`), as the argument of the complex number
`x + y·i`. -/
noncomputable def atan2 (y x : ℝ) : ℝ := Complex.arg (x + y * Complex.I)

/-- For a positive modulus the Euclidean remainder lands in `[0, m)`. -/
lemma remEuclid_bounds (x m : ℝ) (hm : 0 < m) :
    0 ≤ remEuclid x m ∧ remEuclid x m < m := by
  have key : remEuclid x m = m * Int.fract (x / m) := by
    unfold remEuclid Int.fract
    rw [mul_sub, mul_div_cancel₀ _ hm.ne']
  rw [key]
  constructor
  · exact mul_nonneg hm.le (Int.fract_nonneg _)
  · calc m * Int.fract (x / m) < m * 1 :=
        mul_lt_mul_of_pos_left (Int.fract_lt_one _) hm
    _ = m := mul_one m

/-- Constant `SRGBEOTF_ALPHA` from the source. -/
noncomputable def SRGBEOTF_ALPHA : ℝ := 0.055

/-- Constant `SRGBEOTF_GAMMA` from the source. -/
noncomputable def SRGBEOTF_GAMMA : ℝ := 2.4

/-- Constant `SRGBEOTF_PHI` from the source (the "less precise but basically
official now" value). -/
noncomputable def SRGBEOTF_PHI : ℝ := 12.92

/-- Constant `SRGBEOTF_CHI` from the source. -/
noncomputable def SRGBEOTF_CHI : ℝ := 0.04045

/-- Constant `SRGBEOTF_CHI_INV` from the source. -/
noncomputable def SRGBEOTF_CHI_INV : ℝ := 0.0031308

/-- Constant `LAB_DELTA = 6.0 / 29.0` from the source. -/
noncomputable def LAB_DELTA : ℝ := 6 / 29

/-- PQ EOTF constant `m1`. -/
noncomputable def PQEOTF_M1 : ℝ := 0.1593017578125

/-- PQ EOTF constant `m2`. -/
noncomputable def PQEOTF_M2 : ℝ := 78.84375

/-- PQ EOTF constant `c1`. -/
noncomputable def PQEOTF_C1 : ℝ := 0.8359375

/-- PQ EOTF constant `c2`. -/
noncomputable def PQEOTF_C2 : ℝ := 18.8515625

/-- PQ EOTF constant `c3`. -/
noncomputable def PQEOTF_C3 : ℝ := 18.6875

/-- JzAzBz blend constant `B`. -/
noncomputable def JZAZBZ_B : ℝ := 1.15

/-- JzAzBz blend constant `G`. -/
noncomputable def JZAZBZ_G : ℝ := 0.66

/-- JzAzBz constant `D`. -/
noncomputable def JZAZBZ_D : ℝ := -0.56

/-- JzAzBz constant `D0 = 1.6295499532821566e-11`. -/
noncomputable def JZAZBZ_D0 : ℝ := 1.6295499532821566 * 1e-11

/-- JzAzBz modified PQ exponent `P = 1.7 * m2`. -/
noncomputable def JZAZBZ_P : ℝ := 1.7 * PQEOTF_M2

/-- Standard Illuminant D65, `pub const D65: [f32; 3]`. -/
noncomputable def D65 : Fin 3 → ℝ := ![0.9504559270516716, 1.0, 1.0890577507598784]

/-- The sRGB / D65 forward matrix `XYZ65_MAT`. -/
noncomputable def XYZ65_MAT : Fin 3 → Fin 3 → ℝ :=
  ![![0.4124, 0.3576, 0.1805],
    ![0.2126, 0.7152, 0.0722],
    ![0.0193, 0.1192, 0.9505]]

/-- Its higher-precision inverse `XYZ65_MAT_INV`. -/
noncomputable def XYZ65_MAT_INV : Fin 3 → Fin 3 → ℝ :=
  ![![3.2406254773, -1.5372079722, -0.4986285987],
    ![-0.9689307147, 1.8757560609, 0.0415175238],
    ![0.0557101204, -0.2040210506, 1.0569959423]]

/-- Oklab matrix `OKLAB_M1`. -/
noncomputable def OKLAB_M1 : Fin 3 → Fin 3 → ℝ :=
  ![![0.8189330101, 0.0329845436, 0.0482003018],
    ![0.3618667424, 0.9293118715, 0.2643662691],
    ![-0.1288597137, 0.0361456387, 0.6338517070]]

/-- Oklab matrix `OKLAB_M2`. -/
noncomputable def OKLAB_M2 : Fin 3 → Fin 3 → ℝ :=
  ![![0.2104542553, 1.9779984951, 0.0259040371],
    ![0.7936177850, -2.4285922050, 0.7827717662],
    ![-0.0040720468, 0.4505937099, -0.8086757660]]

/-- Oklab matrix `OKLAB_M1_INV`. -/
noncomputable def OKLAB_M1_INV : Fin 3 → Fin 3 → ℝ :=
  ![![1.2270138511, -0.0405801784, -0.0763812845],
    ![-0.5577999807, 1.1122568696, -0.4214819784],
    ![0.281256149, -0.0716766787, 1.5861632204]]

/-- Oklab matrix `OKLAB_M2_INV`. -/
noncomputable def OKLAB_M2_INV : Fin 3 → Fin 3 → ℝ :=
  ![![0.9999999985, 1.0000000089, 1.0000000547],
    ![0.3963377922, -0.1055613423, -0.0894841821],
    ![0.2158037581, -0.0638541748, -1.2914855379]]

/-- JzAzBz matrix `JZAZBZ_M1`. -/
noncomputable def JZAZBZ_M1 : Fin 3 → Fin 3 → ℝ :=
  ![![0.41478972, 0.579999, 0.0146480],
    ![-0.2015100, 1.120649, 0.0531008],
    ![-0.0166008, 0.264800, 0.6684799]]

/-- JzAzBz matrix `JZAZBZ_M2`. -/
noncomputable def JZAZBZ_M2 : Fin 3 → Fin 3 → ℝ :=
  ![![0.500000, 0.500000, 0.000000],
    ![3.524000, -4.066708, 0.542708],
    ![0.199076, 1.096799, -1.295875]]

/-- JzAzBz matrix `JZAZBZ_M1_INV`. -/
noncomputable def JZAZBZ_M1_INV : Fin 3 → Fin 3 → ℝ :=
  ![![1.9242264358, -1.0047923126, 0.037651404],
    ![0.3503167621, 0.7264811939, -0.0653844229],
    ![-0.090982811, -0.3127282905, 1.5227665613]]

/-- JzAzBz matrix `JZAZBZ_M2_INV`. -/
noncomputable def JZAZBZ_M2_INV : Fin 3 → Fin 3 → ℝ :=
  ![![1, 0.1386050433, 0.0580473162],
    ![1, -0.1386050433, -0.0580473162],
    ![1, -0.096019242, -0.8118918961]]

/-- `matmul3`: `pixel * matrix` with the pixel contracted against matrix
columns, exactly as the source expansion. -/
noncomputable def matmul3 (p : Pixel) (m : Fin 3 → Fin 3 → ℝ) : Pixel :=
  (p.1 * m 0 0 + p.2.1 * m 1 0 + p.2.2 * m 2 0,
   p.1 * m 0 1 + p.2.1 * m 1 1 + p.2.2 * m 2 1,
   p.1 * m 0 2 + p.2.1 * m 1 2 + p.2.2 * m 2 2)

/-- `matmul3t`: transposed variant (pixel contracted against matrix rows). -/
noncomputable def matmul3t (p : Pixel) (m : Fin 3 → Fin 3 → ℝ) : Pixel :=
  (p.1 * m 0 0 + p.2.1 * m 0 1 + p.2.2 * m 0 2,
   p.1 * m 1 0 + p.2.1 * m 1 1 + p.2.2 * m 1 2,
   p.1 * m 2 0 + p.2.1 * m 2 1 + p.2.2 * m 2 2)

/-- sRGB electro-optical transfer function (`srgb_eotf`): linear below the
`SRGBEOTF_CHI` threshold, power-law above. -/
noncomputable def srgb_eotf (n : ℝ) : ℝ :=
  if n ≤ SRGBEOTF_CHI then n / SRGBEOTF_PHI
  else ((n + SRGBEOTF_ALPHA) / (1 + SRGBEOTF_ALPHA)) ^ SRGBEOTF_GAMMA

/-- Inverse sRGB EOTF (`srgb_eotf_inverse`). -/
noncomputable def srgb_eotf_inverse (n : ℝ) : ℝ :=
  if n ≤ SRGBEOTF_CHI_INV then n * SRGBEOTF_PHI
  else (1 + SRGBEOTF_ALPHA) * (n ^ (1 / SRGBEOTF_GAMMA)) - SRGBEOTF_ALPHA

/-- Parametric PQ EOTF (`pq_eotf_common`). -/
noncomputable def pq_eotf_common (e m2 : ℝ) : ℝ :=
  10000 *
    spowf ((max (spowf e (1 / m2) - PQEOTF_C1) 0) /
        (PQEOTF_C2 - PQEOTF_C3 * spowf e (1 / m2)))
      (1 / PQEOTF_M1)

/-- Parametric PQ OETF (`pq_oetf_common`). -/
noncomputable def pq_oetf_common (f m2 : ℝ) : ℝ :=
  spowf ((PQEOTF_C1 + PQEOTF_C2 * spowf (f / 10000) PQEOTF_M1) /
      (1 + PQEOTF_C3 * spowf (f / 10000) PQEOTF_M1))
    m2

/-- PQ EOTF with the standard exponent (`pq_eotf`). -/
noncomputable def pq_eotf (e : ℝ) : ℝ := pq_eotf_common e PQEOTF_M2

/-- PQ OETF with the standard exponent (`pq_oetf`). -/
noncomputable def pq_oetf (f : ℝ) : ℝ := pq_oetf_common f PQEOTF_M2

/-- PQ EOTF with the JzAzBz-modified exponent (`pqz_eotf`). -/
noncomputable def pqz_eotf (e : ℝ) : ℝ := pq_eotf_common e JZAZBZ_P

/-- PQ OETF with the JzAzBz-modified exponent (`pqz_oetf`). -/
noncomputable def pqz_oetf (f : ℝ) : ℝ := pq_oetf_common f JZAZBZ_P

/-! ## Per-edge conversion functions -/

/-- `srgb_to_hsv`: min/max/range, hue branch by which channel attains the
max (ties resolved in channel order), hue wrapped by `rem_euclid(1.0)`;
hue and saturation degenerate to `(0, 0)` when the range is zero. -/
noncomputable def srgb_to_hsv (p : Pixel) : Pixel :=
  let vmin := min (min p.1 p.2.1) p.2.2
  let vmax := max (max p.1 p.2.1) p.2.2
  let dmax := vmax - vmin
  let v := vmax
  let hs : ℝ × ℝ :=
    if dmax = 0 then (0, 0)
    else
      let s := dmax / vmax
      let dr := ((vmax - p.1) / 6 + dmax / 2) / dmax
      let dg := ((vmax - p.2.1) / 6 + dmax / 2) / dmax
      let db := ((vmax - p.2.2) / 6 + dmax / 2) / dmax
      let h :=
        remEuclid
          (if p.1 = vmax then db - dg
           else if p.2.1 = vmax then 1 / 3 + dr - db
           else 2 / 3 + dg - dr)
          1
      (h, s)
  (hs.1, hs.2, v)

/-- `hsv_to_srgb`: six sector cases selected by `trunc(h*6)`; saturation 0
collapses to the achromatic pixel. -/
noncomputable def hsv_to_srgb (p : Pixel) : Pixel :=
  if p.2.1 = 0 then (p.2.2, p.2.2, p.2.2)
  else
    let h0 := p.1 * 6
    let var_h := if h0 = 6 then 0 else h0
    let var_i := truncR var_h
    let var_1 := p.2.2 * (1 - p.2.1)
    let var_2 := p.2.2 * (1 - p.2.1 * (var_h - var_i))
    let var_3 := p.2.2 * (1 - p.2.1 * (1 - (var_h - var_i)))
    if var_i = 0 then (p.2.2, var_3, var_1)
    else if var_i = 1 then (var_2, p.2.2, var_1)
    else if var_i = 2 then (var_1, p.2.2, var_3)
    else if var_i = 3 then (var_1, var_2, p.2.2)
    else if var_i = 4 then (var_3, var_1, p.2.2)
    else (p.2.2, var_1, var_2)

/-- `srgb_to_lrgb`: the sRGB EOTF per channel. -/
noncomputable def srgb_to_lrgb (p : Pixel) : Pixel :=
  (srgb_eotf p.1, srgb_eotf p.2.1, srgb_eotf p.2.2)

/-- `lrgb_to_srgb`: the inverse sRGB EOTF per channel. -/
noncomputable def lrgb_to_srgb (p : Pixel) : Pixel :=
  (srgb_eotf_inverse p.1, srgb_eotf_inverse p.2.1, srgb_eotf_inverse p.2.2)

/-- `lrgb_to_xyz`: transposed multiply by `XYZ65_MAT`. -/
noncomputable def lrgb_to_xyz (p : Pixel) : Pixel := matmul3t p XYZ65_MAT

/-- `xyz_to_lrgb`: transposed multiply by `XYZ65_MAT_INV`. -/
noncomputable def xyz_to_lrgb (p : Pixel) : Pixel := matmul3t p XYZ65_MAT_INV

/-- Per-channel piecewise map of `xyz_to_lab` (cube root above the LAB delta
cube, linear below). -/
noncomputable def labF (c : ℝ) : ℝ :=
  if c > LAB_DELTA ^ (3 : ℕ) then cbrt c
  else c / (3 * LAB_DELTA ^ (2 : ℕ)) + 4 / 29

/-- `xyz_to_lab`: divide out D65, apply the piecewise map per channel, then
combine with the 116/500/200 weights. -/
noncomputable def xyz_to_lab (p : Pixel) : Pixel :=
  let q : Pixel := (p.1 / D65 0, p.2.1 / D65 1, p.2.2 / D65 2)
  let r : Pixel := (labF q.1, labF q.2.1, labF q.2.2)
  (116 * r.2.1 - 16, 500 * (r.1 - r.2.1), 200 * (r.2.1 - r.2.2))

/-- Per-channel piecewise map of `lab_to_xyz` (cube above the LAB delta,
linear below). -/
noncomputable def labFinv (c : ℝ) : ℝ :=
  if c > LAB_DELTA then c ^ (3 : ℕ)
  else 3 * LAB_DELTA ^ (2 : ℕ) * (c - 4 / 29)

/-- `lab_to_xyz`: undo the weighted combination, the piecewise map, and the
D65 normalization, symmetrically to `xyz_to_lab`. -/
noncomputable def lab_to_xyz (p : Pixel) : Pixel :=
  let q : Pixel :=
    ((p.1 + 16) / 116 + p.2.1 / 500,
     (p.1 + 16) / 116,
     (p.1 + 16) / 116 - p.2.2 / 200)
  let r : Pixel := (labFinv q.1, labFinv q.2.1, labFinv q.2.2)
  (r.1 * D65 0, r.2.1 * D65 1, r.2.2 * D65 2)

/-- `xyz_to_oklab`: matrix, per-channel cube root, matrix. -/
noncomputable def xyz_to_oklab (p : Pixel) : Pixel :=
  let lms := matmul3 p OKLAB_M1
  let lms2 : Pixel := (cbrt lms.1, cbrt lms.2.1, cbrt lms.2.2)
  matmul3 lms2 OKLAB_M2

/-- `oklab_to_xyz`: inverse matrix, per-channel cube, inverse matrix. -/
noncomputable def oklab_to_xyz (p : Pixel) : Pixel :=
  let lms := matmul3 p OKLAB_M2_INV
  let lms2 : Pixel := (lms.1 ^ (3 : ℕ), lms.2.1 ^ (3 : ℕ), lms.2.2 ^ (3 : ℕ))
  matmul3 lms2 OKLAB_M1_INV

/-- `xyz_to_jzazbz`: cross-talk mix, matrix, modified PQ OETF per channel,
matrix, then the rational lightness remap with `D` and `D0`. -/
noncomputable def xyz_to_jzazbz (p : Pixel) : Pixel :=
  let lms :=
    matmul3t
      (p.1 * JZAZBZ_B - (JZAZBZ_B - 1) * p.2.2,
       p.2.1 * JZAZBZ_G - (JZAZBZ_G - 1) * p.1,
       p.2.2)
      JZAZBZ_M1
  let lms2 : Pixel := (pqz_oetf lms.1, pqz_oetf lms.2.1, pqz_oetf lms.2.2)
  let lab := matmul3t lms2 JZAZBZ_M2
  (((1 + JZAZBZ_D) * lab.1) / (1 + JZAZBZ_D * lab.1) - JZAZBZ_D0,
   lab.2.1,
   lab.2.2)

/-- `jzazbz_to_xyz`: exact algebraic reversal; note the final two statements
mutate channel 0 first and channel 1 second using the already-updated
channel 0, exactly as the source does. -/
noncomputable def jzazbz_to_xyz (p : Pixel) : Pixel :=
  let lms :=
    matmul3t
      ((p.1 + JZAZBZ_D0) / (1 + JZAZBZ_D - JZAZBZ_D * (p.1 + JZAZBZ_D0)),
       p.2.1,
       p.2.2)
      JZAZBZ_M2_INV
  let lms2 : Pixel := (pqz_eotf lms.1, pqz_eotf lms.2.1, pqz_eotf lms.2.2)
  let q := matmul3t lms2 JZAZBZ_M1_INV
  let x0 := (q.1 + (JZAZBZ_B - 1) * q.2.2) / JZAZBZ_B
  let x1 := (q.2.1 + (JZAZBZ_G - 1) * x0) / JZAZBZ_G
  (x0, x1, q.2.2)

/-- `lab_to_lch`: polar radius of the two chroma channels, hue angle
`atan2(b, a)` in degrees wrapped into `[0, 360)` by `rem_euclid(360.0)`. -/
noncomputable def lab_to_lch (p : Pixel) : Pixel :=
  (p.1,
   Real.sqrt (p.2.1 ^ (2 : ℕ) + p.2.2 ^ (2 : ℕ)),
   remEuclid (toDegrees (atan2 p.2.2 p.2.1)) 360)

/-- `lch_to_lab`: `a = C·cos(H)`, `b = C·sin(H)` with the hue in degrees. -/
noncomputable def lch_to_lab (p : Pixel) : Pixel :=
  (p.1,
   p.2.1 * Real.cos (toRadians p.2.2),
   p.2.1 * Real.sin (toRadians p.2.2))

/-- Interpretation of an `Edge` label as its per-pixel function. -/
noncomputable def applyEdge : Edge → Pixel → Pixel
  | .srgbToHsv => srgb_to_hsv
  | .hsvToSrgb => hsv_to_srgb
  | .srgbToLrgb => srgb_to_lrgb
  | .lrgbToSrgb => lrgb_to_srgb
  | .lrgbToXyz => lrgb_to_xyz
  | .xyzToLrgb => xyz_to_lrgb
  | .xyzToLab => xyz_to_lab
  | .labToXyz => lab_to_xyz
  | .xyzToOklab => xyz_to_oklab
  | .oklabToXyz => oklab_to_xyz
  | .xyzToJzazbz => xyz_to_jzazbz
  | .jzazbzToXyz => jzazbz_to_xyz
  | .labToLch => lab_to_lch
  | .lchToLab => lch_to_lab

/-! ## Dispatcher entry points -/

/-- `convert_space_chunked`: walk the edge sequence, applying each edge
function to every pixel of the slice before advancing (the source recursion
applies one edge across the slice, then recurses; that is exactly a left
fold of per-edge maps over the edge sequence).  The `none` branch is the
source's `unreachable!()` (never taken, by `path_facts`). -/
noncomputable def convert_space_chunked (f t : Space) (pixels : List Pixel) :
    List Pixel :=
  match path f t with
  | some es => es.foldl (fun ps e => ps.map (applyEdge e)) pixels
  | none => pixels

/-- `convert_space`: wraps the pixel in a one-element slice and runs the
chunked dispatcher, exactly as the source does. -/
noncomputable def convert_space (f t : Space) (p : Pixel) : Pixel :=
  (convert_space_chunked f t [p]).headI

/-- `convert_space_sliced`: process the flat buffer three channels at a
time (`chunks_exact_mut(3)`), leaving any remainder untouched. -/
noncomputable def convert_space_sliced (f t : Space) : List ℝ → List ℝ
  | a :: b :: c :: rest =>
    let q := convert_space f t (a, b, c)
    q.1 :: q.2.1 :: q.2.2 :: convert_space_sliced f t rest
  | l => l

/-- `convert_space_alpha`: run `convert_space` on channels 0-2 of a
4-channel pixel, leaving the 4th (alpha) channel alone. -/
noncomputable def convert_space_alpha (f t : Space) (p : ℝ × ℝ × ℝ × ℝ) :
    ℝ × ℝ × ℝ × ℝ :=
  let q := convert_space f t (p.1, p.2.1, p.2.2.1)
  (q.1, q.2.1, q.2.2, p.2.2.2)

/-- Flatten a list of 3-channel pixels into a flat interleaved buffer. -/
def flattenPixels (ps : List Pixel) : List ℝ :=
  ps.flatMap (fun p => [p.1, p.2.1, p.2.2])

/-! ## Shared lemmas about the dispatcher -/

/-- Apply an edge sequence to a single pixel, left to right. -/
noncomputable def applyPath (es : List Edge) (p : Pixel) : Pixel :=
  es.foldl (fun q e => applyEdge e q) p

/-- Folding per-edge maps over a slice is the same as mapping the whole edge
sequence over each pixel. -/
lemma foldl_map_comm (es : List Edge) (ps : List Pixel) :
    es.foldl (fun l e => l.map (applyEdge e)) ps = ps.map (fun p => applyPath es p) := by
  induction es generalizing ps with
  | nil => simp [applyPath]
  | cons e es ih =>
    simp only [List.foldl_cons, ih, List.map_map]
    rfl

/-- On a completed walk, `convert_space` applies the edge sequence. -/
lemma convert_space_of_path {f t : Space} {es : List Edge}
    (hp : path f t = some es) (p : Pixel) :
    convert_space f t p = applyPath es p := by
  simp [convert_space, convert_space_chunked, hp, foldl_map_comm]

/-- The chunked entry point is the single-pixel entry point mapped over the
slice. -/
lemma chunked_eq_map (f t : Space) (ps : List Pixel) :
    convert_space_chunked f t ps = ps.map (convert_space f t) := by
  cases hp : path f t with
  | none =>
    have hconv : ∀ p : Pixel, convert_space f t p = p := by
      intro p
      simp [convert_space, convert_space_chunked, hp]
    simp only [convert_space_chunked, hp]
    have hmap : ps.map (convert_space f t) = ps.map (fun a => a) :=
      List.map_congr_left (fun a _ => hconv a)
    rw [hmap]
    simp
  | some es =>
    simp only [convert_space_chunked, hp, foldl_map_comm]
    exact List.map_congr_left (fun a _ => (convert_space_of_path hp a).symm)

/-! ## Claims -/

/-- C1: for every ordered pair of the ten spaces, the dispatcher recursion
terminates (any fuel from 6 up yields the same completed edge sequence, so
the unbounded Rust recursion completes), applies at most 5 per-pixel edge
functions, never more than the tree distance between the two spaces, visits
no space twice, and `convert_space_chunked` applies exactly that edge
sequence across the slice. -/
theorem claim_c1 : ∀ f t : Space,
    (∃ p : List Edge,
      pathF 6 f t = some p ∧
      (∀ n : Nat, 6 ≤ n → pathF n f t = some p) ∧
      p.length ≤ 5 ∧ p.length ≤ treeDist f t) ∧
    (∃ vs : List Space, nodesF 6 f t = some vs ∧ vs.Nodup) ∧
    (∀ ps : List Pixel,
      convert_space_chunked f t ps =
        ((pathF 6 f t).getD []).foldl (fun l e => l.map (applyEdge e)) ps) := by
  intro f t
  obtain ⟨h1, h2, h3, h4, h5⟩ := path_facts f t
  cases hp : pathF 6 f t with
  | none => rw [hp] at h1; simp at h1
  | some p =>
    cases hv : nodesF 6 f t with
    | none => rw [hv] at h2; simp at h2
    | some vs =>
      rw [hp] at h3 h4
      rw [hv] at h5
      simp only [Option.getD_some] at h3 h4 h5
      refine ⟨⟨p, rfl, fun n hn => pathF_mono 6 f t p hp n hn, h3, le_of_eq h4⟩,
        ⟨vs, rfl, h5⟩, ?_⟩
      intro ps
      simp only [convert_space_chunked, path, hp, Option.getD_some]

/-- C2 counterexample: `HSV` and `CIELCH` are distinct, yet neither
`HSV < CIELCH` nor `CIELCH < HSV` holds — instead both `HSV > CIELCH` and
`CIELCH > HSV` hold, so the relation is not a strict partial order and
"exactly one of `A < B`, `B < A`" fails. -/
theorem claim_c2_counterexample :
    Space.HSV ≠ Space.CIELCH ∧
    ¬ Space.lt Space.HSV Space.CIELCH ∧
    ¬ Space.lt Space.CIELCH Space.HSV ∧
    Space.gt Space.HSV Space.CIELCH ∧
    Space.gt Space.CIELCH Space.HSV := by
  decide

/-- C2 (amended): `partial_cmp` is total and never `Equal` on distinct
spaces, but it is not a strict partial order: exactly one of `A < B`, `B < A`
holds precisely when one space is a tree ancestor of the other; for every
other distinct pair both directions compare `Greater`. -/
theorem claim_c2 : ∀ a b : Space, a ≠ b →
    (Space.pcmp a b).isSome = true ∧
    Space.pcmp a b ≠ some Ordering.eq ∧
    (((Space.lt a b ∧ ¬ Space.lt b a) ∨ (Space.lt b a ∧ ¬ Space.lt a b)) ↔
      (isAncestor a b ∨ isAncestor b a)) ∧
    (¬ (isAncestor a b ∨ isAncestor b a) → Space.gt a b ∧ Space.gt b a) := by
  decide

/-- Witness for C2 at the concrete distinct pair `(SRGB, HSV)`. -/
theorem claim_c2_witness :
    Space.SRGB ≠ Space.HSV ∧
    ((Space.pcmp Space.SRGB Space.HSV).isSome = true ∧
     Space.pcmp Space.SRGB Space.HSV ≠ some Ordering.eq ∧
     (((Space.lt Space.SRGB Space.HSV ∧ ¬ Space.lt Space.HSV Space.SRGB) ∨
       (Space.lt Space.HSV Space.SRGB ∧ ¬ Space.lt Space.SRGB Space.HSV)) ↔
       (isAncestor Space.SRGB Space.HSV ∨ isAncestor Space.HSV Space.SRGB)) ∧
     (¬ (isAncestor Space.SRGB Space.HSV ∨ isAncestor Space.HSV Space.SRGB) →
       Space.gt Space.SRGB Space.HSV ∧ Space.gt Space.HSV Space.SRGB)) :=
  ⟨by decide, claim_c2 Space.SRGB Space.HSV (by decide)⟩

/-- C3: converting a pixel from a space to itself is the identity, both for
the single-pixel entry point and element-wise for the chunked one. -/
theorem claim_c3 : ∀ (X : Space) (p : Pixel) (ps : List Pixel),
    convert_space X X p = p ∧ convert_space_chunked X X ps = ps := by
  intro X p ps
  have hp : path X X = some [] := by simp [path, pathF]
  exact ⟨by simp [convert_space, convert_space_chunked, hp],
    by simp [convert_space_chunked, hp]⟩

/-- C5: for every pair of spaces and every 4-channel pixel,
`convert_space_alpha` leaves the 4th channel identical to its input and
writes only the three color channels (which carry the 3-channel
conversion). -/
theorem claim_c5 : ∀ (f t : Space) (p : ℝ × ℝ × ℝ × ℝ),
    (convert_space_alpha f t p).2.2.2 = p.2.2.2 ∧
    (convert_space_alpha f t p).1 = (convert_space f t (p.1, p.2.1, p.2.2.1)).1 ∧
    (convert_space_alpha f t p).2.1 = (convert_space f t (p.1, p.2.1, p.2.2.1)).2.1 ∧
    (convert_space_alpha f t p).2.2.1 = (convert_space f t (p.1, p.2.1, p.2.2.1)).2.2 :=
  fun _ _ _ => ⟨rfl, rfl, rfl, rfl⟩

/-- C7: for the same `(from, to)` pair and the same input data, the chunked
entry point equals the single-pixel entry point applied element-wise, and
the flat-sliced entry point on an evenly divisible buffer (a flattened pixel
list) equals the flattened chunked result. -/
theorem claim_c7 : ∀ (f t : Space) (ps : List Pixel),
    convert_space_chunked f t ps = ps.map (convert_space f t) ∧
    convert_space_sliced f t (flattenPixels ps) =
      flattenPixels (convert_space_chunked f t ps) := by
  intro f t ps
  refine ⟨chunked_eq_map f t ps, ?_⟩
  rw [chunked_eq_map]
  induction ps with
  | nil => simp [flattenPixels, convert_space_sliced]
  | cons p ps ih =>
    obtain ⟨a, b, c⟩ := p
    simp only [flattenPixels, List.flatMap_cons, List.map_cons, List.cons_append,
      List.nil_append] at ih ⊢
    simp only [convert_space_sliced]
    simp [ih]

/-- Auxiliary induction for the flat-sliced entry point, three buffer
elements at a time: length is preserved, the trailing remainder (beyond the
last full 3-chunk) is untouched, and the output decomposes as the conversion
of the evenly divisible prefix followed by the untouched remainder. -/
lemma sliced_remainder (f t : Space) :
    ∀ (n : Nat) (l : List ℝ), l.length ≤ n →
      (convert_space_sliced f t l).length = l.length ∧
      (convert_space_sliced f t l).drop (3 * (l.length / 3)) =
        l.drop (3 * (l.length / 3)) ∧
      convert_space_sliced f t l =
        convert_space_sliced f t (l.take (3 * (l.length / 3))) ++
          l.drop (3 * (l.length / 3)) := by
  intro n
  induction n with
  | zero =>
    intro l hl
    have : l = [] := List.eq_nil_of_length_eq_zero (Nat.le_zero.mp hl)
    subst this
    simp [convert_space_sliced]
  | succ n ih =>
    intro l hl
    match l with
    | [] => simp [convert_space_sliced]
    | [a] => simp [convert_space_sliced]
    | [a, b] => simp [convert_space_sliced]
    | a :: b :: c :: rest =>
      obtain ⟨ih1, ih2, ih3⟩ := ih rest (by simp at hl; omega)
      have hlen : (a :: b :: c :: rest).length = rest.length + 3 := by
        simp
      have hdiv : 3 * ((rest.length + 3) / 3) = 3 * (rest.length / 3) + 3 := by
        omega
      rw [hlen, hdiv]
      simp only [convert_space_sliced]
      refine ⟨by simp [ih1], ?_, ?_⟩
      · have hd :
            ∀ x y z : ℝ, ∀ w : List ℝ,
              (x :: y :: z :: w).drop (3 * (rest.length / 3) + 3) =
                w.drop (3 * (rest.length / 3)) := by
          intro x y z w
          rw [show 3 * (rest.length / 3) + 3 = (3 * (rest.length / 3) + 2) + 1 by omega,
            List.drop_succ_cons,
            show 3 * (rest.length / 3) + 2 = (3 * (rest.length / 3) + 1) + 1 by omega,
            List.drop_succ_cons,
            show 3 * (rest.length / 3) + 1 = 3 * (rest.length / 3) + 1 by omega,
            List.drop_succ_cons]
        rw [hd, hd, ih2]
      · have hd :
            ∀ x y z : ℝ, ∀ w : List ℝ,
              (x :: y :: z :: w).drop (3 * (rest.length / 3) + 3) =
                w.drop (3 * (rest.length / 3)) := by
          intro x y z w
          rw [show 3 * (rest.length / 3) + 3 = (3 * (rest.length / 3) + 2) + 1 by omega,
            List.drop_succ_cons,
            show 3 * (rest.length / 3) + 2 = (3 * (rest.length / 3) + 1) + 1 by omega,
            List.drop_succ_cons, List.drop_succ_cons]
        rw [hd a b c rest, ih3]
        simp only [List.cons_append]

/-- C8: for every pair of spaces and every flat buffer (of any length,
multiple of 3 or not), `convert_space_sliced` succeeds, preserves the buffer
length, converts only the first `3 * (L / 3)` elements, and leaves every
trailing remainder element unchanged. -/
theorem claim_c8 : ∀ (f t : Space) (l : List ℝ),
    (convert_space_sliced f t l).length = l.length ∧
    (convert_space_sliced f t l).drop (3 * (l.length / 3)) =
      l.drop (3 * (l.length / 3)) ∧
    convert_space_sliced f t l =
      convert_space_sliced f t (l.take (3 * (l.length / 3))) ++
        l.drop (3 * (l.length / 3)) :=
  fun f t l => sliced_remainder f t l.length l le_rfl

/-- C4: converting any real pixel from sRGB to CIELCH produces a hue channel
(index 2) in `[0, 360)`, and converting it from sRGB to HSV produces a hue
channel (index 0) in `[0, 1)` — in both cases because the hue is the final
`rem_euclid` wrap (or the explicit `0` of the degenerate HSV branch). -/
theorem claim_c4 : ∀ p : Pixel,
    (0 ≤ (convert_space Space.SRGB Space.CIELCH p).2.2 ∧
      (convert_space Space.SRGB Space.CIELCH p).2.2 < 360) ∧
    (0 ≤ (convert_space Space.SRGB Space.HSV p).1 ∧
      (convert_space Space.SRGB Space.HSV p).1 < 1) := by
  intro p
  constructor
  · have hp : path Space.SRGB Space.CIELCH =
        some [Edge.srgbToLrgb, Edge.lrgbToXyz, Edge.xyzToLab, Edge.labToLch] := by
      decide
    rw [convert_space_of_path hp]
    simp only [applyPath, List.foldl_cons, List.foldl_nil, applyEdge]
    exact remEuclid_bounds _ 360 (by norm_num)
  · have hp : path Space.SRGB Space.HSV = some [Edge.srgbToHsv] := by decide
    rw [convert_space_of_path hp]
    simp only [applyPath, List.foldl_cons, List.foldl_nil, applyEdge]
    unfold srgb_to_hsv
    dsimp only
    split_ifs
    · norm_num
    · exact remEuclid_bounds _ 1 one_pos
    · exact remEuclid_bounds _ 1 one_pos
    · exact remEuclid_bounds _ 1 one_pos

/-- C6 counterexample: the all-ones pixel has zero range, and `srgb_to_hsv`
sends it to `(0, 0, 1)` — the value channel (index 2) is `1`, not `0` as the
claim states. -/
theorem claim_c6_counterexample :
    srgb_to_hsv ((1 : ℝ), (1 : ℝ), (1 : ℝ)) = ((0 : ℝ), (0 : ℝ), (1 : ℝ)) ∧
    ((1 : ℝ) ≠ (0 : ℝ)) := by
  constructor
  · unfold srgb_to_hsv
    norm_num
  · norm_num

/-- C6 (amended): on a pixel with all three channels equal (range exactly
zero), `srgb_to_hsv` yields hue `0` and saturation `0`, while the value
channel equals the common channel value (the max), not `0`. -/
theorem claim_c6 : ∀ x : ℝ, srgb_to_hsv (x, x, x) = (0, 0, x) := by
  intro x
  unfold srgb_to_hsv
  norm_num

/-! ## Breakpoint analysis for the sRGB transfer function -/

/-- Value of `srgb_eotf`'s linear branch at the threshold `SRGBEOTF_CHI`. -/
noncomputable def srgbBreakLinear : ℝ := SRGBEOTF_CHI / SRGBEOTF_PHI

/-- Value of `srgb_eotf`'s power branch at the threshold `SRGBEOTF_CHI`. -/
noncomputable def srgbBreakPower : ℝ :=
  ((SRGBEOTF_CHI + SRGBEOTF_ALPHA) / (1 + SRGBEOTF_ALPHA)) ^ SRGBEOTF_GAMMA

/-- Value of `srgb_eotf_inverse`'s linear branch at `SRGBEOTF_CHI_INV`. -/
noncomputable def srgbInvBreakLinear : ℝ := SRGBEOTF_CHI_INV * SRGBEOTF_PHI

/-- Value of `srgb_eotf_inverse`'s power branch at `SRGBEOTF_CHI_INV`. -/
noncomputable def srgbInvBreakPower : ℝ :=
  (1 + SRGBEOTF_ALPHA) * (SRGBEOTF_CHI_INV ^ (1 / SRGBEOTF_GAMMA)) - SRGBEOTF_ALPHA

/-- Raising `a ^ (num/den)` to the `den` recovers `a ^ num` (for `a ≥ 0`). -/
lemma rpow_pow_eq (a : ℝ) (ha : 0 ≤ a) (num den : ℕ) (hden : den ≠ 0) :
    (a ^ ((num : ℝ) / (den : ℝ))) ^ (den : ℕ) = a ^ (num : ℕ) := by
  rw [← Real.rpow_natCast (a ^ ((num : ℝ) / (den : ℝ))) den, ← Real.rpow_mul ha,
    div_mul_cancel₀, Real.rpow_natCast]
  exact_mod_cast hden

/-- Rational upper bound for a rational-exponent power, by comparing integer
powers. -/
lemma rpow_lt_of_pow_lt {a r : ℝ} {num den : ℕ} (ha : 0 ≤ a) (hr : 0 ≤ r)
    (hden : den ≠ 0) (h : a ^ num < r ^ den) : a ^ ((num : ℝ) / den) < r := by
  by_contra hc
  push_neg at hc
  have h2 : r ^ den ≤ (a ^ ((num : ℝ) / den)) ^ den := pow_le_pow_left₀ hr hc den
  rw [rpow_pow_eq a ha num den hden] at h2
  linarith

/-- Rational lower bound for a rational-exponent power, by comparing integer
powers. -/
lemma lt_rpow_of_pow_lt {a r : ℝ} {num den : ℕ} (ha : 0 ≤ a) (_hr : 0 ≤ r)
    (hden : den ≠ 0) (h : r ^ den < a ^ num) : r < a ^ ((num : ℝ) / den) := by
  by_contra hc
  push_neg at hc
  have h2 : (a ^ ((num : ℝ) / den)) ^ den ≤ r ^ den :=
    pow_le_pow_left₀ (Real.rpow_nonneg ha _) hc den
  rw [rpow_pow_eq a ha num den hden] at h2
  linarith

/-- The two branches of `srgb_eotf` at the breakpoint: the power branch is
strictly larger than the linear branch, by less than `3e-9`. -/
lemma fwd_break_bounds :
    srgbBreakLinear < srgbBreakPower ∧
      srgbBreakPower < srgbBreakLinear + 3 / 10 ^ 9 := by
  unfold srgbBreakPower srgbBreakLinear SRGBEOTF_CHI SRGBEOTF_PHI SRGBEOTF_ALPHA SRGBEOTF_GAMMA
  have hbase : ((0.04045 : ℝ) + 0.055) / (1 + 0.055) = 1909 / 21100 := by norm_num
  have hexp : (2.4 : ℝ) = ((12 : ℕ) : ℝ) / ((5 : ℕ) : ℝ) := by norm_num
  rw [hbase, hexp]
  constructor
  · exact lt_rpow_of_pow_lt (by norm_num) (by norm_num) (by norm_num) (by norm_num)
  · exact rpow_lt_of_pow_lt (by norm_num) (by norm_num) (by norm_num) (by norm_num)

/-- The two branches of `srgb_eotf_inverse` at the breakpoint: the power
branch is strictly smaller than the linear branch, by less than `3e-8`. -/
lemma inv_break_bounds :
    srgbInvBreakPower < srgbInvBreakLinear ∧
      srgbInvBreakLinear < srgbInvBreakPower + 3 / 10 ^ 8 := by
  unfold srgbInvBreakPower srgbInvBreakLinear SRGBEOTF_CHI_INV SRGBEOTF_PHI SRGBEOTF_ALPHA SRGBEOTF_GAMMA
  have hexp : (1 : ℝ) / 2.4 = ((5 : ℕ) : ℝ) / ((12 : ℕ) : ℝ) := by norm_num
  rw [hexp]
  have hlo : (0.0904738454 : ℝ) < (0.0031308 : ℝ) ^ (((5 : ℕ) : ℝ) / ((12 : ℕ) : ℝ)) :=
    lt_rpow_of_pow_lt (by norm_num) (by norm_num) (by norm_num) (by norm_num)
  have hhi : (0.0031308 : ℝ) ^ (((5 : ℕ) : ℝ) / ((12 : ℕ) : ℝ)) < 0.0904738464 :=
    rpow_lt_of_pow_lt (by norm_num) (by norm_num) (by norm_num) (by norm_num)
  constructor <;> nlinarith [hlo, hhi]

/-- C9 counterexample: at the breakpoint `n = 0.04045` the linear branch
(the value `srgb_eotf` takes there) and the power branch of `srgb_eotf` are
not equal, and likewise for `srgb_eotf_inverse` at `n = 0.0031308`: the
implemented constants (the source's "less precise but basically official
now" values) do not make the transfer function exactly continuous. -/
theorem claim_c9_counterexample :
    srgb_eotf SRGBEOTF_CHI = srgbBreakLinear ∧
    srgbBreakPower ≠ srgbBreakLinear ∧
    srgb_eotf_inverse SRGBEOTF_CHI_INV = srgbInvBreakLinear ∧
    srgbInvBreakPower ≠ srgbInvBreakLinear := by
  refine ⟨?_, ?_, ?_, ?_⟩
  · unfold srgb_eotf srgbBreakLinear
    rw [if_pos le_rfl]
  · exact ne_of_gt fwd_break_bounds.1
  · unfold srgb_eotf_inverse srgbInvBreakLinear
    rw [if_pos le_rfl]
  · exact ne_of_lt inv_break_bounds.1

/-- C9 (amended): the two branches of `srgb_eotf` agree at the breakpoint
only approximately, not exactly: the power branch exceeds the linear branch
(the value `srgb_eotf` actually takes there) by a positive amount below
`3e-9`, and the inverse's power branch falls below its linear branch by a
positive amount below `3e-8`. -/
theorem claim_c9 :
    srgb_eotf SRGBEOTF_CHI = srgbBreakLinear ∧
    srgbBreakLinear < srgbBreakPower ∧
    srgbBreakPower < srgbBreakLinear + 3 / 10 ^ 9 ∧
    srgb_eotf_inverse SRGBEOTF_CHI_INV = srgbInvBreakLinear ∧
    srgbInvBreakPower < srgbInvBreakLinear ∧
    srgbInvBreakLinear < srgbInvBreakPower + 3 / 10 ^ 8 := by
  refine ⟨?_, fwd_break_bounds.1, fwd_break_bounds.2, ?_,
    inv_break_bounds.1, inv_break_bounds.2⟩
  · unfold srgb_eotf srgbBreakLinear
    rw [if_pos le_rfl]
  · unfold srgb_eotf_inverse srgbInvBreakLinear
    rw [if_pos le_rfl]

/-! ## Integer-RGB / hex-string helpers

Strings are modelled as lists of Unicode scalar values (natural numbers), a
`u8` as a natural number (the `as u8` cast becomes `% 256`), and Rust's
`Result` as `Except`.  `char::is_whitespace` is modelled on its ASCII
fragment, which is all that hex strings can contain. -/

/-- One hex digit character of `irgb_to_hex`: `if n >= 10 { n + 55 } else
{ n + 48 } as char`. -/
def hexDigit (n : Nat) : Nat := if 10 ≤ n then n + 55 else n + 48

/-- `irgb_to_hex`: a `#` (code 35) followed by `[c / 16, c % 16]` digit
characters for each channel. -/
def irgb_to_hex (p : List Nat) : List Nat :=
  35 :: p.flatMap (fun c => [hexDigit (c / 16), hexDigit (c % 16)])

/-- ASCII fragment of Rust `char::is_whitespace`. -/
def isAsciiWS (u : Nat) : Bool :=
  u = 32 || u = 9 || u = 10 || u = 11 || u = 12 || u = 13

/-- Rust `str::trim` (ASCII fragment): strip whitespace at both ends. -/
def trimWS (s : List Nat) : List Nat :=
  ((s.dropWhile isAsciiWS).reverse.dropWhile isAsciiWS).reverse

/-- Rust `str::to_ascii_uppercase`, per character. -/
def toUpperAscii (u : Nat) : Nat := if 97 ≤ u ∧ u ≤ 122 then u - 32 else u

/-- Error values of `hex_to_irgb` (the source uses message strings: one for
a hex character out of bounds, one for an incorrect length). -/
inductive HexError where
  | badChar (c : Nat)
  | badLength
deriving DecidableEq, Repr

/-- The per-character decoder of `hex_to_irgb`: `'0'..'9'` (codes 48-57)
and `'A'..'F'` (codes 65-70), everything else an error. -/
def hexVal (u : Nat) : Except HexError Nat :=
  if 57 ≥ u ∧ u ≥ 48 then Except.ok (u - 48)
  else if 70 ≥ u ∧ u ≥ 65 then Except.ok (u - 55)
  else Except.error (HexError.badChar u)

/-- `hex_to_irgb`: trim, uppercase, strip one leading `#`, require exactly
6 characters, decode each (first error wins, as with collecting into
`Result` in the source), and recombine pairs of digits into bytes. -/
def hex_to_irgb (input : List Nat) : Except HexError (List Nat) :=
  let hex := (trimWS input).map toUpperAscii
  let chars := if hex.head? = some 35 then hex.tail else hex
  if chars.length = 6 then
    (chars.mapM hexVal).map (fun ids =>
      [(ids.getD 0 0 * 16 + ids.getD 1 0) % 256,
       (ids.getD 2 0 * 16 + ids.getD 3 0) % 256,
       (ids.getD 4 0 * 16 + ids.getD 5 0) % 256])
  else Except.error HexError.badLength

deriving instance DecidableEq for Except

/-- Facts about an encoded hex digit, checked by evaluation over the 16
digit values: it is not whitespace, it is already uppercase, and `hexVal`
decodes it back. -/
lemma hexDigit_facts : ∀ d : Nat, d < 16 →
    isAsciiWS (hexDigit d) = false ∧
    toUpperAscii (hexDigit d) = hexDigit d ∧
    hexVal (hexDigit d) = Except.ok d := by
  decide

/-- C10: the hex encoder and decoder round-trip exactly on every integer
RGB triple with channels below 256. -/
theorem claim_c10 (r g b : Nat) (hr : r < 256) (hg : g < 256) (hb : b < 256) :
    hex_to_irgb (irgb_to_hex [r, g, b]) = Except.ok [r, g, b] := by
  have h0 : r / 16 < 16 := Nat.div_lt_of_lt_mul (by omega)
  have h1 : r % 16 < 16 := Nat.mod_lt _ (by norm_num)
  have h2 : g / 16 < 16 := Nat.div_lt_of_lt_mul (by omega)
  have h3 : g % 16 < 16 := Nat.mod_lt _ (by norm_num)
  have h4 : b / 16 < 16 := Nat.div_lt_of_lt_mul (by omega)
  have h5 : b % 16 < 16 := Nat.mod_lt _ (by norm_num)
  obtain ⟨w0, u0, v0⟩ := hexDigit_facts _ h0
  obtain ⟨w1, u1, v1⟩ := hexDigit_facts _ h1
  obtain ⟨w2, u2, v2⟩ := hexDigit_facts _ h2
  obtain ⟨w3, u3, v3⟩ := hexDigit_facts _ h3
  obtain ⟨w4, u4, v4⟩ := hexDigit_facts _ h4
  obtain ⟨w5, u5, v5⟩ := hexDigit_facts _ h5
  have henc : irgb_to_hex [r, g, b] =
      [35, hexDigit (r / 16), hexDigit (r % 16), hexDigit (g / 16),
       hexDigit (g % 16), hexDigit (b / 16), hexDigit (b % 16)] := by
    simp [irgb_to_hex]
  rw [henc]
  unfold hex_to_irgb
  have htrim : trimWS
      [35, hexDigit (r / 16), hexDigit (r % 16), hexDigit (g / 16),
       hexDigit (g % 16), hexDigit (b / 16), hexDigit (b % 16)] =
      [35, hexDigit (r / 16), hexDigit (r % 16), hexDigit (g / 16),
       hexDigit (g % 16), hexDigit (b / 16), hexDigit (b % 16)] := by
    unfold trimWS
    rw [List.dropWhile_cons_of_neg (by decide)]
    simp only [List.reverse_cons, List.reverse_nil, List.nil_append,
      List.cons_append, List.append_nil]
    rw [List.dropWhile_cons_of_neg (by simp [w5])]
    simp
  rw [htrim]
  simp only [List.map_cons, List.map_nil, u0, u1, u2, u3, u4, u5]
  rw [show toUpperAscii 35 = 35 from rfl]
  simp only [List.head?_cons, List.tail_cons]
  split_ifs with hhash hlen hlen2
  · simp only [List.mapM_cons, List.mapM_nil, v0, v1, v2, v3, v4, v5]
    simp only [Except.map, Except.pure, bind, Except.bind, pure]
    simp only [List.getD, List.get?_cons_zero, List.get?_cons_succ,
      Option.getD_some]
    have hr16 : (r / 16 * 16 + r % 16) % 256 = r := by omega
    have hg16 : (g / 16 * 16 + g % 16) % 256 = g := by omega
    have hb16 : (b / 16 * 16 + b % 16) % 256 = b := by omega
    rw [hr16, hg16, hb16]
  · simp at hlen
  · simp at hhash
  · simp at hhash

/-- Witness for C10 at the repository's own test triple `(51, 89, 242)`
(hex `#3359F2`). -/
theorem claim_c10_witness :
    (51 < 256 ∧ 89 < 256 ∧ 242 < 256) ∧
    hex_to_irgb (irgb_to_hex [51, 89, 242]) = Except.ok [51, 89, 242] :=
  ⟨⟨by decide, by decide, by decide⟩,
    claim_c10 51 89 242 (by decide) (by decide) (by decide)⟩
